/-
  Verification of the Staff AI Manager plugin (OpenRCT2) core logic.

  Shallow embedding of the analysis-and-decision engine:
  DeterministicRandom, NetworkHelper, ActionQueue, ParkAnalyzer,
  RideTracker coverage, CrimeDetector, GuestFeedbackAnalyzer,
  StaffManager hire targets / patrol-area clamping / statistics reset.

  Sources: src/unnamed/part_001 (v3.0.0) and
  src/advanced-staff-ai-manager.js (v2.2.0).
-/
import Mathlib

namespace StaffAI

/-! ## CONFIG (the constants the claims depend on, from part_001) -/

namespace CONFIG

def securityCrimeThreshold : Nat := 3

def entertainerHappinessThreshold : Int := 60

def handymanMinCount : Nat := 2
def handymanMaxCount : Nat := 50
def handymanTargetRatio : ℚ := 1 / 100

def patrolZoneSize : Nat := 15
def patrolZoneOverlap : Nat := 2

end CONFIG

/-! ## DeterministicRandom (part_001 lines 113-125)

`getSeed` reads `date.ticksElapsed`; we pass the tick explicitly.
JS doubles are idealised as real numbers: `Math.sin` becomes `Real.sin`
and `x - Math.floor(x)` is the fractional part. -/

namespace DeterministicRandom

noncomputable def random (tick offset : ℤ) : ℝ :=
  let seed : ℤ := tick + offset
  let x : ℝ := Real.sin ((seed : ℝ) * 12.9898) * 43758.5453
  x - ⌊x⌋

noncomputable def randomInt (tick lo hi offset : ℤ) : ℤ :=
  ⌊random tick offset * ((hi : ℝ) - (lo : ℝ) + 1)⌋ + lo

end DeterministicRandom

/-! ## NetworkHelper (part_001 lines 130-148)

`getMode` reads `network.mode` (falling back to `'none'` on failure);
we model the already-read mode string as input. -/

namespace NetworkHelper

def isServer (mode : String) : Bool :=
  mode == "none" || mode == "server"

def canModifyGameState (mode : String) : Bool :=
  isServer mode

end NetworkHelper

/-! ## ActionQueue (part_001 lines 771-791)

The queue holds pending effects of arbitrary payload type.
`process` returns the pair (dispatched effects, remaining queue):
if the authority check fails, the queue is cleared and nothing is
dispatched; otherwise the while loop shifts and dispatches entries
while the queue is nonempty and fewer than `maxPerTick` have been
processed. -/

namespace ActionQueue

def maxPerTick : Nat := 3

def processLoop {α : Type} : List α → Nat → List α × List α
  | [], _ => ([], [])
  | item :: rest, processed =>
    if processed < maxPerTick then
      let r := processLoop rest (processed + 1)
      (item :: r.1, r.2)
    else ([], item :: rest)

def process {α : Type} (mode : String) (queue : List α) :
    List α × List α :=
  if !NetworkHelper.canModifyGameState mode then ([], [])
  else processLoop queue 0

end ActionQueue

/-! ## RideTracker.getRideCoverage (part_001 lines 352-376)

The JS computation runs over doubles seeded with ±Infinity; recorded
coordinates are integers, so the value space is the integers extended
with both infinities: `WithBot (WithTop ℤ)` (⊥ = -Infinity,
⊤ = Infinity), whose `min`/`max`/`+` agree with the JS operations on
these values.  The structure's recorded entrance, exit and connected
path points are passed in as coordinate lists. -/

abbrev EInt := WithBot (WithTop ℤ)

/-- An ordinary (finite) JS number. -/
def embedInt (n : ℤ) : EInt := ((n : WithTop ℤ) : EInt)

def posInf : EInt := ((⊤ : WithTop ℤ) : EInt)

def negInf : EInt := (⊥ : EInt)

structure Coverage where
  minX : EInt
  minY : EInt
  maxX : EInt
  maxY : EInt
  deriving Repr, DecidableEq

namespace RideTracker

/-- One iteration of the `for` loop over `allPoints`. -/
def coverageStep (cov : Coverage) (p : ℤ × ℤ) : Coverage :=
  { minX := min cov.minX (embedInt p.1)
    minY := min cov.minY (embedInt p.2)
    maxX := max cov.maxX (embedInt p.1)
    maxY := max cov.maxY (embedInt p.2) }

def getRideCoverage (entrances exits paths : List (ℤ × ℤ)) : Coverage :=
  let allPoints := entrances ++ exits ++ paths
  let c := allPoints.foldl coverageStep
    { minX := posInf, minY := posInf, maxX := negInf, maxY := negInf }
  { minX := max (embedInt 0) (c.minX + embedInt (-3))
    minY := max (embedInt 0) (c.minY + embedInt (-3))
    maxX := c.maxX + embedInt 3
    maxY := c.maxY + embedInt 3 }

end RideTracker

/-! ## CrimeDetector.needsMoreSecurity (part_001 lines 434-436)

`this.vandalismCount >= CONFIG.securityCrimeThreshold`, with the
instance state `vandalismCount` and the configured threshold passed
explicitly. -/

namespace CrimeDetector

def needsMoreSecurity (vandalismCount threshold : Nat) : Bool :=
  vandalismCount ≥ threshold

end CrimeDetector

/-! ## GuestFeedbackAnalyzer (part_001 lines 462-589)

A guest is read through the external entity query: a possibly-absent
numeric happiness, a possibly-absent numeric nausea, and a list of
expressed thought types.  `update` folds the source's guest loop over
the list, then applies the `happyCount > 0` guard before overwriting
the happiness average and percentage. -/

structure Guest where
  happiness : Option ℚ
  nausea : Option ℚ
  thoughts : List String

structure GFAState where
  disgustCount : Nat
  litterComplaints : Nat
  averageHappiness : ℚ
  happinessPercent : ℤ
  unhappyGuestCount : Nat
  totalGuests : Nat
  deriving Repr, DecidableEq

namespace GuestFeedbackAnalyzer

def initial : GFAState :=
  { disgustCount := 0
    litterComplaints := 0
    averageHappiness := 128
    happinessPercent := 50
    unhappyGuestCount := 0
    totalGuests := 0 }

def thoughtIsDisgust (t : String) : Bool :=
  t == "disgusting" || t == "bad_litter" || t == "path_disgusting" ||
    t == "vandalism"

def thoughtIsLitter (t : String) : Bool :=
  t == "bad_litter" || t == "litter"

structure FeedbackAcc where
  disgust : Nat
  litter : Nat
  unhappy : Nat
  totalHappiness : ℚ
  happyCount : Nat

def scanGuest (acc : FeedbackAcc) (g : Guest) : FeedbackAcc :=
  let acc1 :=
    match g.happiness with
    | some h =>
      { acc with
        totalHappiness := acc.totalHappiness + h
        happyCount := acc.happyCount + 1
        unhappy := if h < 153 then acc.unhappy + 1 else acc.unhappy }
    | none => acc
  let acc2 :=
    { acc1 with
      disgust := acc1.disgust + (g.thoughts.filter thoughtIsDisgust).length
      litter := acc1.litter + (g.thoughts.filter thoughtIsLitter).length }
  match g.nausea with
  | some n => if n > 150 then { acc2 with disgust := acc2.disgust + 1 } else acc2
  | none => acc2

/-- `Math.round` for the nonnegative quantities it is applied to here
(rounds half toward positive infinity). -/
def jsRound (q : ℚ) : ℤ := ⌊q + 1 / 2⌋

def update (s : GFAState) (guests : List Guest) : GFAState :=
  let acc := guests.foldl scanGuest ⟨0, 0, 0, 0, 0⟩
  { disgustCount := acc.disgust
    litterComplaints := acc.litter
    unhappyGuestCount := acc.unhappy
    totalGuests := guests.length
    averageHappiness :=
      if acc.happyCount > 0 then acc.totalHappiness / acc.happyCount
      else s.averageHappiness
    happinessPercent :=
      if acc.happyCount > 0 then
        jsRound (acc.totalHappiness / acc.happyCount / 255 * 100)
      else s.happinessPercent }

def needsMoreEntertainers (s : GFAState) (threshold : ℤ) : Bool :=
  s.happinessPercent < threshold

end GuestFeedbackAnalyzer

/-! ## ParkAnalyzer (part_001 lines 612-677)

`startAnalysis` resets progress and records `totalCells = width*height`.
`runAnalysisStep` runs the
`while (progress < total && processed < 500)` loop: each iteration
visits the cell at the current linear progress index (classifying its
elements through the external tile query, which cannot affect control
flow: failures are caught and the loop advances regardless), then
advances both counters.  We record the visited linear indices; the
returned Bool is the step's completion result. -/

structure AnalyzerState where
  analysisProgress : Nat
  analysisTotal : Nat
  isAnalyzed : Bool
  deriving Repr, DecidableEq

namespace ParkAnalyzer

def startAnalysis (mapWidth mapHeight : Nat) : AnalyzerState :=
  { analysisProgress := 0
    analysisTotal := mapWidth * mapHeight
    isAnalyzed := false }

def analysisLoop (total progress processed : Nat) : Nat × List Nat :=
  if h : progress < total ∧ processed < 500 then
    let r := analysisLoop total (progress + 1) (processed + 1)
    (r.1, progress :: r.2)
  else (progress, [])
termination_by 500 - processed
decreasing_by omega

def runAnalysisStep (s : AnalyzerState) : AnalyzerState × Bool × List Nat :=
  if s.isAnalyzed then (s, true, [])
  else
    let r := analysisLoop s.analysisTotal s.analysisProgress 0
    if s.analysisTotal ≤ r.1 then
      ({ s with analysisProgress := r.1, isAnalyzed := true }, true, r.2)
    else
      ({ s with analysisProgress := r.1 }, false, r.2)

def stepState (s : AnalyzerState) : AnalyzerState := (runAnalysisStep s).1

/-- The analyzer state after `k` calls to `runAnalysisStep`. -/
def iterateStep : Nat → AnalyzerState → AnalyzerState
  | 0, s => s
  | k + 1, s => stepState (iterateStep k s)

/-- The linear cell indices visited across the first `k` calls. -/
def runVisited : Nat → AnalyzerState → List Nat
  | 0, _ => []
  | k + 1, s => runVisited k s ++ (runAnalysisStep (iterateStep k s)).2.2

end ParkAnalyzer

/-! ## Statistics and resetStatistics (advanced-staff-ai-manager.js 526-578) -/

structure Statistics where
  totalStaff : Nat
  handymenCount : Nat
  mechanicsCount : Nat
  securityCount : Nat
  entertainersCount : Nat
  staffHired : Nat
  staffFired : Nat
  ordersChanged : Nat
  patrolZonesSet : Nat
  patrolZonesFailed : Nat
  dispatchesMade : Nat
  litterCleaned : Nat
  ridesFixed : Nat
  ridesInspected : Nat
  vandalsStopped : Nat
  lastFrameTime : ℚ
  avgFrameTime : ℚ
  autoReanalyzeCount : Nat
  autoGenZonesCount : Nat
  deriving Repr, DecidableEq

namespace StaffManager

def resetStatistics (s : Statistics) : Statistics :=
  { totalStaff := 0
    handymenCount := 0
    mechanicsCount := 0
    securityCount := 0
    entertainersCount := 0
    staffHired := 0
    staffFired := 0
    ordersChanged := 0
    patrolZonesSet := 0
    patrolZonesFailed := 0
    dispatchesMade := 0
    litterCleaned := 0
    ridesFixed := 0
    ridesInspected := 0
    vandalsStopped := 0
    lastFrameTime := 0
    avgFrameTime := 0
    autoReanalyzeCount := s.autoReanalyzeCount
    autoGenZonesCount := s.autoGenZonesCount }

end StaffManager

/-! ## setStaffPatrolArea (part_001 lines 999-1014)

The queued `staffsetpatrolarea` arguments: the four raw coordinates are
floored and clamped sequentially (x1 and y1 into [0, size-1], then x2
from x1 and y2 from y1), and the fine coordinates are the tile
coordinates times 32.  Returns `none` when the authority check fails or
the staff id is invalid (no effect is queued). -/

structure PatrolArgs where
  id : ℤ
  x1 : ℤ
  y1 : ℤ
  x2 : ℤ
  y2 : ℤ
  mode : Nat
  deriving Repr, DecidableEq

namespace StaffManager

def setStaffPatrolArea (netMode : String) (mapWidth mapHeight : Nat)
    (staffId : ℤ) (x1 y1 x2 y2 : ℚ) (zoneMode : Nat) : Option PatrolArgs :=
  if !NetworkHelper.canModifyGameState netMode then none
  else if staffId < 0 then none
  else
    let cx1 : ℤ := max 0 (min ⌊x1⌋ ((mapWidth : ℤ) - 1))
    let cy1 : ℤ := max 0 (min ⌊y1⌋ ((mapHeight : ℤ) - 1))
    let cx2 : ℤ := max cx1 (min ⌊x2⌋ ((mapWidth : ℤ) - 1))
    let cy2 : ℤ := max cy1 (min ⌊y2⌋ ((mapHeight : ℤ) - 1))
    some
      { id := staffId
        x1 := cx1 * 32
        y1 := cy1 * 32
        x2 := cx2 * 32
        y2 := cy2 * 32
        mode := zoneMode }

/-! ## checkAutoHire hire target (part_001 lines 932-963)

`Math.max(min, Math.min(max, Math.ceil(driverMetric * ratio)))`,
shared by all four roles. -/

def hireTarget (minCount maxCount : Nat) (driverMetric ratio : ℚ) : Int :=
  max (minCount : Int) (min (maxCount : Int) ⌈driverMetric * ratio⌉)

end StaffManager

/-! ## Helper lemmas -/

/-! ### EInt arithmetic facts -/

theorem embedInt_le_embedInt {a b : ℤ} : embedInt a ≤ embedInt b ↔ a ≤ b := by
  unfold embedInt
  rw [WithBot.coe_le_coe, WithTop.coe_le_coe]

theorem embedInt_add (a b : ℤ) :
    embedInt (a + b) = embedInt a + embedInt b := by
  unfold embedInt
  rw [show ((a + b : ℤ) : WithTop ℤ) = (a : WithTop ℤ) + (b : WithTop ℤ) from
    WithTop.coe_add a b, WithBot.coe_add]

theorem embedInt_max (a b : ℤ) :
    embedInt (max a b) = max (embedInt a) (embedInt b) := by
  unfold embedInt
  rw [WithTop.coe_max, WithBot.coe_max]

theorem embedInt_ne_posInf (n : ℤ) : embedInt n ≠ posInf := by
  unfold embedInt posInf
  intro h
  exact WithTop.coe_ne_top (WithBot.coe_inj.mp h)

theorem embedInt_ne_negInf (n : ℤ) : embedInt n ≠ negInf := by
  unfold embedInt negInf
  exact WithBot.coe_ne_bot

theorem posInf_add_embedInt (k : ℤ) : posInf + embedInt k = posInf := by
  unfold embedInt posInf
  rw [← WithBot.coe_add, WithTop.top_add]

theorem negInf_add_embedInt (k : ℤ) : negInf + embedInt k = negInf := by
  unfold embedInt negInf
  rw [WithBot.bot_add]

theorem embedInt_le_posInf (n : ℤ) : embedInt n ≤ posInf := by
  unfold embedInt posInf
  rw [WithBot.coe_le_coe]
  exact le_top

theorem negInf_le_embedInt (n : ℤ) : negInf ≤ embedInt n := bot_le

/-! ### Fold lemmas for running minima / maxima -/

theorem foldl_min_le_init {α β : Type} [LinearOrder β] (f : α → β) :
    ∀ (l : List α) (i : β), l.foldl (fun m x => min m (f x)) i ≤ i := by
  intro l
  induction l with
  | nil => intro i; exact le_refl i
  | cons b tl ih =>
    intro i
    simp only [List.foldl_cons]
    exact (ih (min i (f b))).trans (min_le_left _ _)

theorem foldl_min_le_mem {α β : Type} [LinearOrder β] (f : α → β) :
    ∀ (l : List α) (i : β) (a : α), a ∈ l →
      l.foldl (fun m x => min m (f x)) i ≤ f a := by
  intro l
  induction l with
  | nil => intro i a ha; cases ha
  | cons b tl ih =>
    intro i a ha
    simp only [List.foldl_cons]
    rcases List.mem_cons.mp ha with h | h
    · subst h
      exact (foldl_min_le_init f tl (min i (f a))).trans (min_le_right _ _)
    · exact ih (min i (f b)) a h

theorem foldl_min_cases {α β : Type} [LinearOrder β] (f : α → β) :
    ∀ (l : List α) (i : β),
      l.foldl (fun m x => min m (f x)) i = i ∨
        ∃ a ∈ l, l.foldl (fun m x => min m (f x)) i = f a := by
  intro l
  induction l with
  | nil => intro i; exact Or.inl rfl
  | cons b tl ih =>
    intro i
    simp only [List.foldl_cons]
    rcases ih (min i (f b)) with h | ⟨a, ha, h⟩
    · rcases le_total i (f b) with hle | hle
      · exact Or.inl (h.trans (min_eq_left hle))
      · exact Or.inr ⟨b, List.mem_cons_self b tl, h.trans (min_eq_right hle)⟩
    · exact Or.inr ⟨a, List.mem_cons_of_mem b ha, h⟩

theorem init_le_foldl_max {α β : Type} [LinearOrder β] (f : α → β) :
    ∀ (l : List α) (i : β), i ≤ l.foldl (fun m x => max m (f x)) i := by
  intro l
  induction l with
  | nil => intro i; exact le_refl i
  | cons b tl ih =>
    intro i
    simp only [List.foldl_cons]
    exact (le_max_left _ _).trans (ih (max i (f b)))

theorem mem_le_foldl_max {α β : Type} [LinearOrder β] (f : α → β) :
    ∀ (l : List α) (i : β) (a : α), a ∈ l →
      f a ≤ l.foldl (fun m x => max m (f x)) i := by
  intro l
  induction l with
  | nil => intro i a ha; cases ha
  | cons b tl ih =>
    intro i a ha
    simp only [List.foldl_cons]
    rcases List.mem_cons.mp ha with h | h
    · subst h
      exact (le_max_right _ _).trans (init_le_foldl_max f tl (max i (f a)))
    · exact ih (max i (f b)) a h

theorem foldl_max_cases {α β : Type} [LinearOrder β] (f : α → β) :
    ∀ (l : List α) (i : β),
      l.foldl (fun m x => max m (f x)) i = i ∨
        ∃ a ∈ l, l.foldl (fun m x => max m (f x)) i = f a := by
  intro l
  induction l with
  | nil => intro i; exact Or.inl rfl
  | cons b tl ih =>
    intro i
    simp only [List.foldl_cons]
    rcases ih (max i (f b)) with h | ⟨a, ha, h⟩
    · rcases le_total i (f b) with hle | hle
      · exact Or.inr ⟨b, List.mem_cons_self b tl, h.trans (max_eq_right hle)⟩
      · exact Or.inl (h.trans (max_eq_left hle))
    · exact Or.inr ⟨a, List.mem_cons_of_mem b ha, h⟩

/-! ### Coverage fold projections -/

namespace RideTracker

theorem foldl_coverageStep_minX :
    ∀ (l : List (ℤ × ℤ)) (c : Coverage),
      (l.foldl coverageStep c).minX =
        l.foldl (fun m p => min m (embedInt p.1)) c.minX := by
  intro l
  induction l with
  | nil => intro c; rfl
  | cons p tl ih =>
    intro c
    simp only [List.foldl_cons, ih]
    rfl

theorem foldl_coverageStep_minY :
    ∀ (l : List (ℤ × ℤ)) (c : Coverage),
      (l.foldl coverageStep c).minY =
        l.foldl (fun m p => min m (embedInt p.2)) c.minY := by
  intro l
  induction l with
  | nil => intro c; rfl
  | cons p tl ih =>
    intro c
    simp only [List.foldl_cons, ih]
    rfl

theorem foldl_coverageStep_maxX :
    ∀ (l : List (ℤ × ℤ)) (c : Coverage),
      (l.foldl coverageStep c).maxX =
        l.foldl (fun m p => max m (embedInt p.1)) c.maxX := by
  intro l
  induction l with
  | nil => intro c; rfl
  | cons p tl ih =>
    intro c
    simp only [List.foldl_cons, ih]
    rfl

theorem foldl_coverageStep_maxY :
    ∀ (l : List (ℤ × ℤ)) (c : Coverage),
      (l.foldl coverageStep c).maxY =
        l.foldl (fun m p => max m (embedInt p.2)) c.maxY := by
  intro l
  induction l with
  | nil => intro c; rfl
  | cons p tl ih =>
    intro c
    simp only [List.foldl_cons, ih]
    rfl

theorem getRideCoverage_fields (entrances exits paths : List (ℤ × ℤ)) :
    getRideCoverage entrances exits paths =
      { minX := max (embedInt 0)
          ((entrances ++ exits ++ paths).foldl
            (fun m p => min m (embedInt p.1)) posInf + embedInt (-3))
        minY := max (embedInt 0)
          ((entrances ++ exits ++ paths).foldl
            (fun m p => min m (embedInt p.2)) posInf + embedInt (-3))
        maxX := (entrances ++ exits ++ paths).foldl
          (fun m p => max m (embedInt p.1)) negInf + embedInt 3
        maxY := (entrances ++ exits ++ paths).foldl
          (fun m p => max m (embedInt p.2)) negInf + embedInt 3 } := by
  unfold getRideCoverage
  rw [Coverage.mk.injEq]
  exact ⟨by rw [foldl_coverageStep_minX], by rw [foldl_coverageStep_minY],
    by rw [foldl_coverageStep_maxX], by rw [foldl_coverageStep_maxY]⟩

theorem foldl_min_embed_attained (f : ℤ × ℤ → ℤ) (l : List (ℤ × ℤ))
    (hne : l ≠ []) :
    ∃ q ∈ l,
      l.foldl (fun m p => min m (embedInt (f p))) posInf = embedInt (f q) ∧
        ∀ p ∈ l, f q ≤ f p := by
  rcases foldl_min_cases (fun p => embedInt (f p)) l posInf with hinit |
    ⟨q, hq, hqe⟩
  · obtain ⟨p0, hp0⟩ := List.exists_mem_of_ne_nil l hne
    have h1 := foldl_min_le_mem (fun p => embedInt (f p)) l posInf p0 hp0
    rw [hinit] at h1
    exact absurd (le_antisymm (embedInt_le_posInf (f p0)) h1)
      (embedInt_ne_posInf (f p0))
  · refine ⟨q, hq, hqe, fun p hp => ?_⟩
    have h2 := foldl_min_le_mem (fun p => embedInt (f p)) l posInf p hp
    rw [hqe] at h2
    exact embedInt_le_embedInt.mp h2

theorem foldl_max_embed_attained (f : ℤ × ℤ → ℤ) (l : List (ℤ × ℤ))
    (hne : l ≠ []) :
    ∃ q ∈ l,
      l.foldl (fun m p => max m (embedInt (f p))) negInf = embedInt (f q) ∧
        ∀ p ∈ l, f p ≤ f q := by
  rcases foldl_max_cases (fun p => embedInt (f p)) l negInf with hinit |
    ⟨q, hq, hqe⟩
  · obtain ⟨p0, hp0⟩ := List.exists_mem_of_ne_nil l hne
    have h1 := mem_le_foldl_max (fun p => embedInt (f p)) l negInf p0 hp0
    rw [hinit] at h1
    exact absurd (le_antisymm h1 (negInf_le_embedInt (f p0)))
      (embedInt_ne_negInf (f p0))
  · refine ⟨q, hq, hqe, fun p hp => ?_⟩
    have h2 := mem_le_foldl_max (fun p => embedInt (f p)) l negInf p hp
    rw [hqe] at h2
    exact embedInt_le_embedInt.mp h2

end RideTracker

namespace ParkAnalyzer

theorem analysisLoop_spec (total progress processed : Nat)
    (hp : progress ≤ total) :
    analysisLoop total progress processed =
      (min (progress + (500 - processed)) total,
        List.range' progress (min (500 - processed) (total - progress))) := by
  rw [analysisLoop]
  split
  · rename_i h
    rw [analysisLoop_spec total (progress + 1) (processed + 1) (by omega)]
    have h1 : min (progress + 1 + (500 - (processed + 1))) total =
        min (progress + (500 - processed)) total := by omega
    have h2 : min (500 - (processed + 1)) (total - (progress + 1)) + 1 =
        min (500 - processed) (total - progress) := by omega
    rw [Prod.mk.injEq]
    refine ⟨h1, ?_⟩
    rw [← h2, List.range'_succ]
  · rename_i h
    have h1 : min (progress + (500 - processed)) total = progress := by omega
    have h2 : min (500 - processed) (total - progress) = 0 := by omega
    rw [h1, h2, List.range'_zero]
termination_by 500 - processed
decreasing_by omega

theorem runAnalysisStep_of_analyzed (s : AnalyzerState)
    (h : s.isAnalyzed = true) : runAnalysisStep s = (s, true, []) := by
  unfold runAnalysisStep
  rw [h]
  rfl

theorem runAnalysisStep_of_not_analyzed (s : AnalyzerState)
    (h : s.isAnalyzed = false) :
    runAnalysisStep s =
      if s.analysisTotal ≤ (analysisLoop s.analysisTotal s.analysisProgress 0).1
      then
        ({ s with
            analysisProgress :=
              (analysisLoop s.analysisTotal s.analysisProgress 0).1
            isAnalyzed := true }, true,
          (analysisLoop s.analysisTotal s.analysisProgress 0).2)
      else
        ({ s with
            analysisProgress :=
              (analysisLoop s.analysisTotal s.analysisProgress 0).1 }, false,
          (analysisLoop s.analysisTotal s.analysisProgress 0).2) := by
  unfold runAnalysisStep
  rw [h]
  rfl

theorem iterateStep_spec (W H k : Nat) :
    iterateStep k (startAnalysis W H) =
      { analysisProgress := min (500 * k) (W * H)
        analysisTotal := W * H
        isAnalyzed := decide (1 ≤ k ∧ W * H ≤ 500 * k) } := by
  induction k with
  | zero =>
    simp only [iterateStep, startAnalysis]
    rw [AnalyzerState.mk.injEq]
    refine ⟨by omega, rfl, ?_⟩
    simp
  | succ k ih =>
    rw [iterateStep, ih]
    by_cases hc : 1 ≤ k ∧ W * H ≤ 500 * k
    · have htrue : (AnalyzerState.mk (min (500 * k) (W * H)) (W * H)
          (decide (1 ≤ k ∧ W * H ≤ 500 * k))).isAnalyzed = true := by
        simpa using hc
      rw [stepState, runAnalysisStep_of_analyzed _ htrue]
      rw [AnalyzerState.mk.injEq]
      refine ⟨by omega, rfl, ?_⟩
      rw [decide_eq_decide]
      omega
    · have hfalse : (AnalyzerState.mk (min (500 * k) (W * H)) (W * H)
          (decide (1 ≤ k ∧ W * H ≤ 500 * k))).isAnalyzed = false := by
        simpa using hc
      have hple : min (500 * k) (W * H) ≤ W * H := by omega
      have hloop := analysisLoop_spec (W * H) (min (500 * k) (W * H)) 0 hple
      rw [stepState, runAnalysisStep_of_not_analyzed _ hfalse]
      simp only [hloop]
      by_cases hdone : W * H ≤ min (min (500 * k) (W * H) + (500 - 0)) (W * H)
      · rw [if_pos hdone]
        rw [AnalyzerState.mk.injEq]
        refine ⟨by omega, rfl, ?_⟩
        rw [eq_comm, decide_eq_true_eq]
        omega
      · rw [if_neg hdone]
        rw [AnalyzerState.mk.injEq]
        refine ⟨by omega, rfl, ?_⟩
        rw [decide_eq_decide]
        omega

theorem runVisited_spec (W H k : Nat) :
    runVisited k (startAnalysis W H) =
      List.range' 0 (min (500 * k) (W * H)) := by
  induction k with
  | zero =>
    rw [runVisited]
    have : min (500 * 0) (W * H) = 0 := by omega
    rw [this, List.range'_zero]
  | succ k ih =>
    rw [runVisited, ih, iterateStep_spec]
    by_cases hc : 1 ≤ k ∧ W * H ≤ 500 * k
    · have htrue : (AnalyzerState.mk (min (500 * k) (W * H)) (W * H)
          (decide (1 ≤ k ∧ W * H ≤ 500 * k))).isAnalyzed = true := by
        simpa using hc
      rw [runAnalysisStep_of_analyzed _ htrue, List.append_nil]
      congr 1
      omega
    · have hfalse : (AnalyzerState.mk (min (500 * k) (W * H)) (W * H)
          (decide (1 ≤ k ∧ W * H ≤ 500 * k))).isAnalyzed = false := by
        simpa using hc
      have hple : min (500 * k) (W * H) ≤ W * H := by omega
      have hloop := analysisLoop_spec (W * H) (min (500 * k) (W * H)) 0 hple
      rw [runAnalysisStep_of_not_analyzed _ hfalse]
      simp only [hloop]
      have hsplit :
          List.range' 0 (min (500 * k) (W * H)) ++
            List.range' (min (500 * k) (W * H))
              (min (500 - 0) (W * H - min (500 * k) (W * H))) =
          List.range' 0 (min (500 * (k + 1)) (W * H)) := by
        have happ := List.range'_append 0 (min (500 * k) (W * H))
          (min (500 - 0) (W * H - min (500 * k) (W * H))) 1
        simp only [one_mul, zero_add] at happ
        rw [happ]
        congr 1
        omega
      split <;> exact hsplit

end ParkAnalyzer

/-! ## Claim theorems -/

/-- C1: a single call to `ActionQueue.process` dispatches at most
`maxPerTick` (3) queued effects; when `NetworkHelper.canModifyGameState`
is false it dispatches zero effects and leaves the queue empty. -/
theorem actionQueue_process_rate_limited_and_gated
    {α : Type} (mode : String) (queue : List α) :
    (ActionQueue.process mode queue).1.length ≤ ActionQueue.maxPerTick ∧
    (NetworkHelper.canModifyGameState mode = false →
      (ActionQueue.process mode queue).1 = [] ∧
      (ActionQueue.process mode queue).2 = []) := by
  have hloop : ∀ (q : List α) (p : Nat),
      (ActionQueue.processLoop q p).1.length ≤ ActionQueue.maxPerTick - p := by
    intro q
    induction q with
    | nil => intro p; simp [ActionQueue.processLoop]
    | cons a rest ih =>
      intro p
      by_cases hp : p < ActionQueue.maxPerTick
      · have := ih (p + 1)
        simp only [ActionQueue.processLoop, hp, if_true, List.length_cons]
        omega
      · simp [ActionQueue.processLoop, hp]
  constructor
  · unfold ActionQueue.process
    split
    · simp
    · simpa using hloop queue 0
  · intro hm
    simp [ActionQueue.process, hm]

/-- C1 witness: at mode "client" with a four-element queue, nothing is
dispatched and the queue ends empty; the dispatch count obeys the cap. -/
theorem actionQueue_process_rate_limited_and_gated_witness :
    (ActionQueue.process "client" [0, 1, 2, 3]).1.length ≤
      ActionQueue.maxPerTick ∧
    (ActionQueue.process "client" ([0, 1, 2, 3] : List Nat)).1 = [] ∧
    (ActionQueue.process "client" ([0, 1, 2, 3] : List Nat)).2 = [] := by
  obtain ⟨h1, h2⟩ :=
    actionQueue_process_rate_limited_and_gated "client" ([0, 1, 2, 3] : List Nat)
  exact ⟨h1, h2 (by decide)⟩

/-- C5: for configured min ≤ max and any driver metric ≥ 0 and ratio, the
hire target `max(min, min(max, ceil(metric * ratio)))` computed by
`checkAutoHire` lies between min and max. -/
theorem hireTarget_between_min_and_max
    (minCount maxCount : Nat) (metric ratio : ℚ)
    (hmm : minCount ≤ maxCount) (hmetric : 0 ≤ metric) :
    (minCount : Int) ≤ StaffManager.hireTarget minCount maxCount metric ratio ∧
    StaffManager.hireTarget minCount maxCount metric ratio ≤ (maxCount : Int) := by
  unfold StaffManager.hireTarget
  constructor
  · exact le_max_left _ _
  · have h1 : min (maxCount : Int) ⌈metric * ratio⌉ ≤ (maxCount : Int) :=
      min_le_left _ _
    have h2 : (minCount : Int) ≤ (maxCount : Int) := by exact_mod_cast hmm
    exact max_le h2 h1

/-- C5 witness: handyman role at its defaults (min 2, max 50, ratio 0.01)
with 120 guests. -/
theorem hireTarget_between_min_and_max_witness :
    (CONFIG.handymanMinCount : Int) ≤
      StaffManager.hireTarget CONFIG.handymanMinCount CONFIG.handymanMaxCount
        120 CONFIG.handymanTargetRatio ∧
    StaffManager.hireTarget CONFIG.handymanMinCount CONFIG.handymanMaxCount
        120 CONFIG.handymanTargetRatio ≤ (CONFIG.handymanMaxCount : Int) :=
  hireTarget_between_min_and_max CONFIG.handymanMinCount CONFIG.handymanMaxCount
    120 CONFIG.handymanTargetRatio (by decide) (by norm_num)

/-- C7: `needsMoreSecurity` is true iff the vandalism count reaches the
configured crime threshold; with the default threshold 3 it is false at
count 2 and true at count 3. -/
theorem needsMoreSecurity_iff_threshold :
    (∀ count threshold : Nat,
      CrimeDetector.needsMoreSecurity count threshold = true ↔
        count ≥ threshold) ∧
    CrimeDetector.needsMoreSecurity 2 CONFIG.securityCrimeThreshold = false ∧
    CrimeDetector.needsMoreSecurity 3 CONFIG.securityCrimeThreshold = true := by
  refine ⟨fun count threshold => ?_, by decide, by decide⟩
  simp [CrimeDetector.needsMoreSecurity]

/-- C9: `resetStatistics` zeroes every counter and gauge except the
auto-reanalyze and auto-gen-zones counters, whose values are preserved. -/
theorem resetStatistics_zeroes_all_but_preserved (s : Statistics) :
    (StaffManager.resetStatistics s).totalStaff = 0 ∧
    (StaffManager.resetStatistics s).handymenCount = 0 ∧
    (StaffManager.resetStatistics s).mechanicsCount = 0 ∧
    (StaffManager.resetStatistics s).securityCount = 0 ∧
    (StaffManager.resetStatistics s).entertainersCount = 0 ∧
    (StaffManager.resetStatistics s).staffHired = 0 ∧
    (StaffManager.resetStatistics s).staffFired = 0 ∧
    (StaffManager.resetStatistics s).ordersChanged = 0 ∧
    (StaffManager.resetStatistics s).patrolZonesSet = 0 ∧
    (StaffManager.resetStatistics s).patrolZonesFailed = 0 ∧
    (StaffManager.resetStatistics s).dispatchesMade = 0 ∧
    (StaffManager.resetStatistics s).litterCleaned = 0 ∧
    (StaffManager.resetStatistics s).ridesFixed = 0 ∧
    (StaffManager.resetStatistics s).ridesInspected = 0 ∧
    (StaffManager.resetStatistics s).vandalsStopped = 0 ∧
    (StaffManager.resetStatistics s).lastFrameTime = 0 ∧
    (StaffManager.resetStatistics s).avgFrameTime = 0 ∧
    (StaffManager.resetStatistics s).autoReanalyzeCount = s.autoReanalyzeCount ∧
    (StaffManager.resetStatistics s).autoGenZonesCount = s.autoGenZonesCount := by
  exact ⟨rfl, rfl, rfl, rfl, rfl, rfl, rfl, rfl, rfl, rfl, rfl, rfl, rfl, rfl,
    rfl, rfl, rfl, rfl, rfl⟩

/-- C2: `DeterministicRandom.randomInt` is a pure function of the shared
tick seed: any two instances whose `tick + offset` agree compute the same
value, and for lo ≤ hi the value lies in [lo, hi] inclusive. -/
theorem randomInt_deterministic_and_in_range
    (tick lo hi offset : ℤ) (hlohi : lo ≤ hi) :
    (∀ tick₂ offset₂ : ℤ, tick + offset = tick₂ + offset₂ →
      DeterministicRandom.randomInt tick lo hi offset =
        DeterministicRandom.randomInt tick₂ lo hi offset₂) ∧
    (lo ≤ DeterministicRandom.randomInt tick lo hi offset ∧
      DeterministicRandom.randomInt tick lo hi offset ≤ hi) := by
  constructor
  · intro tick₂ offset₂ hseed
    unfold DeterministicRandom.randomInt DeterministicRandom.random
    rw [hseed]
  · have hfract : DeterministicRandom.random tick offset =
        Int.fract (Real.sin (((tick + offset : ℤ) : ℝ) * 12.9898) * 43758.5453) := by
      unfold DeterministicRandom.random Int.fract
      norm_num
    set x : ℝ := Real.sin (((tick + offset : ℤ) : ℝ) * 12.9898) * 43758.5453 with hx
    have hr0 : 0 ≤ DeterministicRandom.random tick offset := by
      rw [hfract]; exact Int.fract_nonneg x
    have hr1 : DeterministicRandom.random tick offset < 1 := by
      rw [hfract]; exact Int.fract_lt_one x
    set r : ℝ := DeterministicRandom.random tick offset with hrdef
    have hn : (0 : ℝ) < (hi : ℝ) - (lo : ℝ) + 1 := by
      have : (lo : ℝ) ≤ (hi : ℝ) := by exact_mod_cast hlohi
      linarith
    constructor
    · have hprod : 0 ≤ r * ((hi : ℝ) - (lo : ℝ) + 1) :=
        mul_nonneg hr0 (le_of_lt hn)
      have hfl : 0 ≤ ⌊r * ((hi : ℝ) - (lo : ℝ) + 1)⌋ := Int.floor_nonneg.mpr hprod
      unfold DeterministicRandom.randomInt
      rw [← hrdef]
      omega
    · have hprod : r * ((hi : ℝ) - (lo : ℝ) + 1) < (hi : ℝ) - (lo : ℝ) + 1 := by
        calc r * ((hi : ℝ) - (lo : ℝ) + 1)
            < 1 * ((hi : ℝ) - (lo : ℝ) + 1) := by
              exact mul_lt_mul_of_pos_right hr1 hn
          _ = (hi : ℝ) - (lo : ℝ) + 1 := one_mul _
      have hcast : ((hi : ℝ) - (lo : ℝ) + 1) = ((hi - lo + 1 : ℤ) : ℝ) := by
        push_cast; ring
      have hfl : ⌊r * ((hi : ℝ) - (lo : ℝ) + 1)⌋ < hi - lo + 1 := by
        rw [Int.floor_lt, ← hcast]; exact hprod
      unfold DeterministicRandom.randomInt
      rw [← hrdef]
      omega

/-- C2 witness: at tick 5, offset 17, the value for the entertainer
sub-type range [0, 6] lies in [0, 6]. -/
theorem randomInt_deterministic_and_in_range_witness :
    0 ≤ DeterministicRandom.randomInt 5 0 6 17 ∧
      DeterministicRandom.randomInt 5 0 6 17 ≤ 6 :=
  (randomInt_deterministic_and_in_range 5 0 6 17 (by decide)).2

/-- C8: `needsMoreEntertainers` is true iff the happiness percentage is
strictly below the configured threshold; with the default threshold 60 it
is true at 40% and false at 61%. -/
theorem needsMoreEntertainers_iff_below_threshold :
    (∀ (s : GFAState) (threshold : ℤ),
      GuestFeedbackAnalyzer.needsMoreEntertainers s threshold = true ↔
        s.happinessPercent < threshold) ∧
    GuestFeedbackAnalyzer.needsMoreEntertainers
      { GuestFeedbackAnalyzer.initial with happinessPercent := 40 }
      CONFIG.entertainerHappinessThreshold = true ∧
    GuestFeedbackAnalyzer.needsMoreEntertainers
      { GuestFeedbackAnalyzer.initial with happinessPercent := 61 }
      CONFIG.entertainerHappinessThreshold = false := by
  refine ⟨fun s threshold => ?_, by decide, by decide⟩
  simp [GuestFeedbackAnalyzer.needsMoreEntertainers]

/-- C10: when no guest carries a numeric happiness value (in particular
when the guest list is empty), `update` leaves `averageHappiness` and
`happinessPercent` at their prior values; consequently a park that has
never had guests (initial state: 128 and 50) reports
`needsMoreEntertainers` under the default threshold 60. -/
theorem update_no_happiness_data_keeps_prior
    (s : GFAState) (guests : List Guest)
    (hno : ∀ g ∈ guests, g.happiness = none) :
    ((GuestFeedbackAnalyzer.update s guests).averageHappiness =
        s.averageHappiness ∧
      (GuestFeedbackAnalyzer.update s guests).happinessPercent =
        s.happinessPercent) ∧
    GuestFeedbackAnalyzer.needsMoreEntertainers
      (GuestFeedbackAnalyzer.update GuestFeedbackAnalyzer.initial [])
      CONFIG.entertainerHappinessThreshold = true := by
  have hstep : ∀ (acc : GuestFeedbackAnalyzer.FeedbackAcc) (g : Guest),
      g.happiness = none →
      (GuestFeedbackAnalyzer.scanGuest acc g).happyCount = acc.happyCount := by
    intro acc g hg
    unfold GuestFeedbackAnalyzer.scanGuest
    rw [hg]
    cases g.nausea with
    | none => rfl
    | some n =>
      simp only
      split <;> rfl
  have hfold : ∀ (gs : List Guest) (acc : GuestFeedbackAnalyzer.FeedbackAcc),
      (∀ g ∈ gs, g.happiness = none) →
      (gs.foldl GuestFeedbackAnalyzer.scanGuest acc).happyCount =
        acc.happyCount := by
    intro gs
    induction gs with
    | nil => intro acc _; rfl
    | cons g rest ih =>
      intro acc hall
      have hg : g.happiness = none := hall g (List.mem_cons_self g rest)
      have hrest : ∀ g' ∈ rest, g'.happiness = none := fun g' hg' =>
        hall g' (List.mem_cons_of_mem g hg')
      simp only [List.foldl_cons]
      rw [ih _ hrest, hstep acc g hg]
  constructor
  · have hzero :
        (guests.foldl GuestFeedbackAnalyzer.scanGuest ⟨0, 0, 0, 0, 0⟩).happyCount
          = 0 := hfold guests ⟨0, 0, 0, 0, 0⟩ hno
    unfold GuestFeedbackAnalyzer.update
    simp only [hzero]
    norm_num
  · decide

/-- C10 witness: for the initial analyzer state and the empty guest list,
the prior values 128 and 50 survive `update` and the entertainer signal
fires. -/
theorem update_no_happiness_data_keeps_prior_witness :
    ((GuestFeedbackAnalyzer.update GuestFeedbackAnalyzer.initial []).averageHappiness =
        GuestFeedbackAnalyzer.initial.averageHappiness ∧
      (GuestFeedbackAnalyzer.update GuestFeedbackAnalyzer.initial []).happinessPercent =
        GuestFeedbackAnalyzer.initial.happinessPercent) ∧
    GuestFeedbackAnalyzer.needsMoreEntertainers
      (GuestFeedbackAnalyzer.update GuestFeedbackAnalyzer.initial [])
      CONFIG.entertainerHappinessThreshold = true :=
  update_no_happiness_data_keeps_prior GuestFeedbackAnalyzer.initial []
    (by intro g hg; cases hg)

/-- C3: from `startAnalysis`, the scan-complete flag `isAnalyzed` is set
after exactly `max 1 ((W*H + 499) / 500)` calls to `runAnalysisStep` and
stays set (so it is set exactly once), and over that scan cycle the
visited linear cell indices are exactly `0, ..., W*H - 1`: W*H cells in
total, none visited twice. -/
theorem parkAnalyzer_scan_completes_and_visits_each_cell_once (W H : Nat) :
    (∀ k : Nat,
      (ParkAnalyzer.iterateStep k (ParkAnalyzer.startAnalysis W H)).isAnalyzed
        = true ↔ max 1 ((W * H + 499) / 500) ≤ k) ∧
    ParkAnalyzer.runVisited (max 1 ((W * H + 499) / 500))
        (ParkAnalyzer.startAnalysis W H) = List.range (W * H) ∧
    (ParkAnalyzer.runVisited (max 1 ((W * H + 499) / 500))
        (ParkAnalyzer.startAnalysis W H)).length = W * H ∧
    (ParkAnalyzer.runVisited (max 1 ((W * H + 499) / 500))
        (ParkAnalyzer.startAnalysis W H)).Nodup := by
  have hvis : ParkAnalyzer.runVisited (max 1 ((W * H + 499) / 500))
      (ParkAnalyzer.startAnalysis W H) = List.range' 0 (W * H) := by
    rw [ParkAnalyzer.runVisited_spec]
    congr 1
    omega
  refine ⟨fun k => ?_, ?_, ?_, ?_⟩
  · rw [ParkAnalyzer.iterateStep_spec]
    simp only [decide_eq_true_eq]
    omega
  · rw [hvis, List.range_eq_range']
  · rw [hvis, List.length_range']
  · rw [hvis]
    exact List.nodup_range' 0 (W * H)

/-- C6 counterexample: `getRideCoverage` does NOT clamp the upper edge of
the box to world bounds.  A structure whose only recorded point is the
in-bounds path tile (127, 5) of a 128x128 world gets maxX = 130 > 127
(the function has no world-size input at all; clamping happens only at
the callers). -/
theorem getRideCoverage_not_world_clamped :
    (RideTracker.getRideCoverage [] [] [(127, 5)]).maxX = embedInt 130 ∧
    ¬(RideTracker.getRideCoverage [] [] [(127, 5)]).maxX ≤
      embedInt (128 - 1) := by
  constructor
  · rfl
  · decide

/-- C6 (amended): for nonnegative recorded points, the coverage box is
the union of the structure's entrance, exit and path-coverage points
expanded by the fixed margin 3, with only the lower corner clamped at 0
(the upper corner is the pointwise maximum plus 3, not clamped to world
bounds); a structure with no recorded points yields the sentinel empty
box (Infinity, Infinity, -Infinity, -Infinity) instead of throwing. -/
theorem getRideCoverage_margin_clamped_below_only
    (entrances exits paths : List (ℤ × ℤ))
    (hnn : ∀ p ∈ entrances ++ exits ++ paths, 0 ≤ p.1 ∧ 0 ≤ p.2) :
    (entrances ++ exits ++ paths = [] →
      RideTracker.getRideCoverage entrances exits paths =
        { minX := posInf, minY := posInf, maxX := negInf, maxY := negInf }) ∧
    (entrances ++ exits ++ paths ≠ [] →
      (∀ p ∈ entrances ++ exits ++ paths,
        (RideTracker.getRideCoverage entrances exits paths).minX ≤
            embedInt p.1 ∧
          embedInt p.1 ≤
            (RideTracker.getRideCoverage entrances exits paths).maxX ∧
          (RideTracker.getRideCoverage entrances exits paths).minY ≤
            embedInt p.2 ∧
          embedInt p.2 ≤
            (RideTracker.getRideCoverage entrances exits paths).maxY) ∧
      (∃ q ∈ entrances ++ exits ++ paths,
        (RideTracker.getRideCoverage entrances exits paths).minX =
          embedInt (max 0 (q.1 - 3))) ∧
      (∃ q ∈ entrances ++ exits ++ paths,
        (RideTracker.getRideCoverage entrances exits paths).maxX =
          embedInt (q.1 + 3)) ∧
      (∃ q ∈ entrances ++ exits ++ paths,
        (RideTracker.getRideCoverage entrances exits paths).minY =
          embedInt (max 0 (q.2 - 3))) ∧
      (∃ q ∈ entrances ++ exits ++ paths,
        (RideTracker.getRideCoverage entrances exits paths).maxY =
          embedInt (q.2 + 3))) := by
  constructor
  · intro h
    rw [RideTracker.getRideCoverage_fields, h]
    simp only [List.foldl_nil]
    rw [Coverage.mk.injEq]
    refine ⟨?_, ?_, ?_, ?_⟩
    · rw [posInf_add_embedInt]
      exact max_eq_right (embedInt_le_posInf 0)
    · rw [posInf_add_embedInt]
      exact max_eq_right (embedInt_le_posInf 0)
    · exact negInf_add_embedInt 3
    · exact negInf_add_embedInt 3
  · intro hne
    obtain ⟨qx, hqx, hqxe, hqxmin⟩ :=
      RideTracker.foldl_min_embed_attained Prod.fst
        (entrances ++ exits ++ paths) hne
    obtain ⟨qy, hqy, hqye, hqymin⟩ :=
      RideTracker.foldl_min_embed_attained Prod.snd
        (entrances ++ exits ++ paths) hne
    obtain ⟨rx, hrx, hrxe, hrxmax⟩ :=
      RideTracker.foldl_max_embed_attained Prod.fst
        (entrances ++ exits ++ paths) hne
    obtain ⟨ry, hry, hrye, hrymax⟩ :=
      RideTracker.foldl_max_embed_attained Prod.snd
        (entrances ++ exits ++ paths) hne
    have hminX : (RideTracker.getRideCoverage entrances exits paths).minX =
        embedInt (max 0 (qx.1 - 3)) := by
      simp only [RideTracker.getRideCoverage_fields]
      rw [hqxe, ← embedInt_add, ← embedInt_max]
      congr 1
    have hminY : (RideTracker.getRideCoverage entrances exits paths).minY =
        embedInt (max 0 (qy.2 - 3)) := by
      simp only [RideTracker.getRideCoverage_fields]
      rw [hqye, ← embedInt_add, ← embedInt_max]
      congr 1
    have hmaxX : (RideTracker.getRideCoverage entrances exits paths).maxX =
        embedInt (rx.1 + 3) := by
      simp only [RideTracker.getRideCoverage_fields]
      rw [hrxe, ← embedInt_add]
    have hmaxY : (RideTracker.getRideCoverage entrances exits paths).maxY =
        embedInt (ry.2 + 3) := by
      simp only [RideTracker.getRideCoverage_fields]
      rw [hrye, ← embedInt_add]
    refine ⟨fun p hp => ?_, ⟨qx, hqx, hminX⟩, ⟨rx, hrx, hmaxX⟩,
      ⟨qy, hqy, hminY⟩, ⟨ry, hry, hmaxY⟩⟩
    obtain ⟨h0x, h0y⟩ := hnn p hp
    have h1 := hqxmin p hp
    have h2 := hrxmax p hp
    have h3 := hqymin p hp
    have h4 := hrymax p hp
    refine ⟨?_, ?_, ?_, ?_⟩
    · rw [hminX, embedInt_le_embedInt]; omega
    · rw [hmaxX, embedInt_le_embedInt]; omega
    · rw [hminY, embedInt_le_embedInt]; omega
    · rw [hmaxY, embedInt_le_embedInt]; omega

/-- C6 witness: a structure with entrance (4, 10) and path point (6, 2):
the box contains both points, its lower corner is clamped at 0 and its
upper corner is a point plus margin 3. -/
theorem getRideCoverage_margin_clamped_below_only_witness :
    (∀ p ∈ [((4 : ℤ), (10 : ℤ))] ++ [] ++ [((6 : ℤ), (2 : ℤ))],
      (RideTracker.getRideCoverage [(4, 10)] [] [(6, 2)]).minX ≤
          embedInt p.1 ∧
        embedInt p.1 ≤ (RideTracker.getRideCoverage [(4, 10)] [] [(6, 2)]).maxX ∧
        (RideTracker.getRideCoverage [(4, 10)] [] [(6, 2)]).minY ≤
          embedInt p.2 ∧
        embedInt p.2 ≤
          (RideTracker.getRideCoverage [(4, 10)] [] [(6, 2)]).maxY) ∧
    (∃ q ∈ [((4 : ℤ), (10 : ℤ))] ++ [] ++ [((6 : ℤ), (2 : ℤ))],
      (RideTracker.getRideCoverage [(4, 10)] [] [(6, 2)]).minX =
        embedInt (max 0 (q.1 - 3))) ∧
    (∃ q ∈ [((4 : ℤ), (10 : ℤ))] ++ [] ++ [((6 : ℤ), (2 : ℤ))],
      (RideTracker.getRideCoverage [(4, 10)] [] [(6, 2)]).maxX =
        embedInt (q.1 + 3)) ∧
    (∃ q ∈ [((4 : ℤ), (10 : ℤ))] ++ [] ++ [((6 : ℤ), (2 : ℤ))],
      (RideTracker.getRideCoverage [(4, 10)] [] [(6, 2)]).minY =
        embedInt (max 0 (q.2 - 3))) ∧
    (∃ q ∈ [((4 : ℤ), (10 : ℤ))] ++ [] ++ [((6 : ℤ), (2 : ℤ))],
      (RideTracker.getRideCoverage [(4, 10)] [] [(6, 2)]).maxY =
        embedInt (q.2 + 3)) :=
  (getRideCoverage_margin_clamped_below_only [(4, 10)] [] [(6, 2)]
    (by decide)).2 (by decide)

/-- C4: whenever `setStaffPatrolArea` queues a patrol-area effect (valid
staff id, positive world dimensions, arbitrary rational inputs), the tile
rectangle placed into the effect (fine coordinates divided by 32)
satisfies 0 ≤ x1 ≤ x2 ≤ worldWidth-1 and 0 ≤ y1 ≤ y2 ≤ worldHeight-1. -/
theorem setStaffPatrolArea_rect_clamped
    (netMode : String) (w h : Nat) (staffId : ℤ) (x1 y1 x2 y2 : ℚ)
    (zoneMode : Nat) (args : PatrolArgs)
    (hw : 1 ≤ w) (hh : 1 ≤ h)
    (heq : StaffManager.setStaffPatrolArea netMode w h staffId x1 y1 x2 y2
      zoneMode = some args) :
    ∃ tx1 ty1 tx2 ty2 : ℤ,
      args.x1 = tx1 * 32 ∧ args.y1 = ty1 * 32 ∧
      args.x2 = tx2 * 32 ∧ args.y2 = ty2 * 32 ∧
      0 ≤ tx1 ∧ tx1 ≤ tx2 ∧ tx2 ≤ (w : ℤ) - 1 ∧
      0 ≤ ty1 ∧ ty1 ≤ ty2 ∧ ty2 ≤ (h : ℤ) - 1 := by
  by_cases hm : NetworkHelper.canModifyGameState netMode
  · by_cases hid : staffId < 0
    · simp [StaffManager.setStaffPatrolArea, hm, hid] at heq
    · simp only [StaffManager.setStaffPatrolArea, hm, Bool.not_true,
        Bool.false_eq_true, if_false, hid, if_neg, Option.some_inj] at heq
      subst heq
      refine ⟨max 0 (min ⌊x1⌋ ((w : ℤ) - 1)),
        max 0 (min ⌊y1⌋ ((h : ℤ) - 1)),
        max (max 0 (min ⌊x1⌋ ((w : ℤ) - 1))) (min ⌊x2⌋ ((w : ℤ) - 1)),
        max (max 0 (min ⌊y1⌋ ((h : ℤ) - 1))) (min ⌊y2⌋ ((h : ℤ) - 1)),
        rfl, rfl, rfl, rfl, ?_, ?_, ?_, ?_, ?_, ?_⟩
      · exact le_max_left _ _
      · exact le_max_left _ _
      · have hw1 : (1 : ℤ) ≤ (w : ℤ) := by exact_mod_cast hw
        omega
      · exact le_max_left _ _
      · exact le_max_left _ _
      · have hh1 : (1 : ℤ) ≤ (h : ℤ) := by exact_mod_cast hh
        omega
  · simp [StaffManager.setStaffPatrolArea, hm] at heq

/-- C4 witness: world 128x128, staff id 7, raw inputs (-5.5, 3.2, 400.9,
7.1): the queued rectangle is tiles (0, 3)-(127, 7), within bounds. -/
theorem setStaffPatrolArea_rect_clamped_witness :
    ∃ tx1 ty1 tx2 ty2 : ℤ,
      (PatrolArgs.mk 7 0 96 4064 224 0).x1 = tx1 * 32 ∧
      (PatrolArgs.mk 7 0 96 4064 224 0).y1 = ty1 * 32 ∧
      (PatrolArgs.mk 7 0 96 4064 224 0).x2 = tx2 * 32 ∧
      (PatrolArgs.mk 7 0 96 4064 224 0).y2 = ty2 * 32 ∧
      0 ≤ tx1 ∧ tx1 ≤ tx2 ∧ tx2 ≤ (128 : ℤ) - 1 ∧
      0 ≤ ty1 ∧ ty1 ≤ ty2 ∧ ty2 ≤ (128 : ℤ) - 1 :=
  setStaffPatrolArea_rect_clamped "none" 128 128 7 (-11 / 2) (16 / 5)
    (4009 / 10) (71 / 10) 0 (PatrolArgs.mk 7 0 96 4064 224 0)
    (by decide) (by decide)
    (by
      have h1 : ⌊(-11 / 2 : ℚ)⌋ = -6 := by norm_num
      have h2 : ⌊(16 / 5 : ℚ)⌋ = 3 := by norm_num
      have h3 : ⌊(4009 / 10 : ℚ)⌋ = 400 := by norm_num
      have h4 : ⌊(71 / 10 : ℚ)⌋ = 7 := by norm_num
      have hm : NetworkHelper.canModifyGameState "none" = true := by decide
      simp only [StaffManager.setStaffPatrolArea, h1, h2, h3, h4, hm]
      norm_num)

end StaffAI
